import Mathlib

/-!
Verification of the pyrobench benchmark comparison engine.

This file gives a shallow embedding of the pure data-flow of the Go
sources (bench/bench.go, bench/packages.go, report/report.go) and proves
properties of it.  External effects (process execution, the HTTP
profile-sharing collaborator, profile parsing, logging output) are
modelled as explicit parameters; Go nil-pointer dereferences are modelled
as an error value of an Except type, and the nondeterministic iteration
order of Go maps is modelled as an explicit order parameter.
-/

namespace Pyrobench

/-! ## Data model of the bench package

A Package mirrors bench.Package restricted to the fields the comparison
logic reads: the import path and benchmark names (meta.ImportPath and
benchmarkNames, which form the keys) and the compiled test binary hash
(testBinaryHash, a byte slice, modelled as a list of naturals). -/

structure Package where
  importPath : String
  benchmarkNames : List String
  testBinaryHash : List Nat
deriving DecidableEq

/-- resultKey / benchKey from bench.go: the identity of a benchmark
across both revisions, (import path, benchmark name). -/
structure BenchKey where
  packagePath : String
  benchmark : String
deriving DecidableEq

/-- The result / bench record stored per key: optional back-references to
the base and head package records (Go pointers become Option). -/
structure BenchEntry where
  base : Option Package
  head : Option Package
deriving DecidableEq

/-- resultFromPackages: every package contributes one (key, package) pair
per benchmark name, in package order then name order. -/
def benchPairs (pkgs : List Package) : List (BenchKey × Package) :=
  pkgs.flatMap fun p => p.benchmarkNames.map fun b => (⟨p.importPath, b⟩, p)

/-- resultMaps.get followed by a field write: if the key is present the
entry is updated in place, otherwise a zero entry is appended at the end
(Go appends to the results slice and records the new index). -/
def upsert (k : BenchKey) (f : BenchEntry → BenchEntry) :
    List (BenchKey × BenchEntry) → List (BenchKey × BenchEntry)
  | [] => [(k, f ⟨none, none⟩)]
  | (k', e) :: rest =>
      if k' = k then (k', f e) :: rest else (k', e) :: upsert k f rest

def setHead (p : Package) (e : BenchEntry) : BenchEntry := { e with head := some p }

def setBase (p : Package) (e : BenchEntry) : BenchEntry := { e with base := some p }

def applyPairs (f : Package → BenchEntry → BenchEntry)
    (ps : List (BenchKey × Package)) (s : List (BenchKey × BenchEntry)) :
    List (BenchKey × BenchEntry) :=
  ps.foldl (fun acc kp => upsert kp.1 (f kp.2) acc) s

/-- The merged key space built by compareResult: head packages are
processed first, then base packages, exactly as in the Go source. -/
def buildBenchMap (basePkgs headPkgs : List Package) : List (BenchKey × BenchEntry) :=
  applyPairs setBase (benchPairs basePkgs) (applyPairs setHead (benchPairs headPkgs) [])

/-- The continue-condition of the compareResult loop: an entry is skipped
iff both sides are present and the test binary hashes are byte-equal. -/
def skipEntry (e : BenchEntry) : Bool :=
  match e.base, e.head with
  | some pb, some ph => pb.testBinaryHash == ph.testBinaryHash
  | _, _ => false

/-- The reason string assigned to a kept entry in compareResult. -/
def entryReason (e : BenchEntry) : String :=
  if e.base = none then "benchmark does not exist in base"
  else if e.head = none then "benchmark does not exist in head"
  else "code change"

/-- resultWithKey / benchWithKey: one entry of the execution plan. -/
structure PlanEntry where
  key : BenchKey
  base : Option Package
  head : Option Package
  reason : String
deriving DecidableEq

/-- The execution plan computed by compareResult: the merged key space in
insertion order, filtered by the hash comparison, each kept entry tagged
with its reason.  (The final debug log statement of the Go loop is pure
output except for its nil dereference, which compareResultPanics below
captures.) -/
def compareResult (basePkgs headPkgs : List Package) : List PlanEntry :=
  (buildBenchMap basePkgs headPkgs).filterMap fun ke =>
    if skipEntry ke.2 then none
    else some ⟨ke.1, ke.2.base, ke.2.head, entryReason ke.2⟩

/-- The debug log at the end of the compareResult loop evaluates
res.head.meta.ImportPath for every kept entry; when such an entry has a
nil head package this is a nil-pointer dereference.  This predicate is
true exactly when the Go function panics. -/
def compareResultPanics (basePkgs headPkgs : List Package) : Bool :=
  (buildBenchMap basePkgs headPkgs).any fun ke =>
    !skipEntry ke.2 && ke.2.head.isNone

/-! ## Characterising the built map -/

/-- The package stored for a key by a sequence of pointer writes is the
last package in the pair list that carries that key. -/
def lastMatch : List (BenchKey × Package) → BenchKey → Option Package
  | [], _ => none
  | kp :: rest, k =>
      match lastMatch rest k with
      | some p => some p
      | none => if kp.1 = k then some kp.2 else none

/-- The package record a side contributes for a key (the last write
wins, mirroring repeated x.head = p / x.base = p assignments). -/
def sideRecord (pkgs : List Package) (k : BenchKey) : Option Package :=
  lastMatch (benchPairs pkgs) k

/-- A key is present on a side iff some package of that side has the
matching import path and lists the benchmark name. -/
def presentIn (pkgs : List Package) (k : BenchKey) : Prop :=
  ∃ p ∈ pkgs, p.importPath = k.packagePath ∧ k.benchmark ∈ p.benchmarkNames

/-- First-match lookup in the entry list (the Go map lookup; keys are
unique in any list built by upsert). -/
def lookupEntry : List (BenchKey × BenchEntry) → BenchKey → Option BenchEntry
  | [], _ => none
  | ke :: rest, k => if ke.1 = k then some ke.2 else lookupEntry rest k

theorem lookupEntry_upsert (s : List (BenchKey × BenchEntry)) (k k' : BenchKey)
    (f : BenchEntry → BenchEntry) :
    lookupEntry (upsert k f s) k' =
      if k' = k then some (f ((lookupEntry s k).getD ⟨none, none⟩))
      else lookupEntry s k' := by
  induction s with
  | nil =>
      by_cases h : k' = k
      · subst h; simp [upsert, lookupEntry]
      · simp [upsert, lookupEntry, h, Ne.symm h]
  | cons ke rest ih =>
      obtain ⟨a, e⟩ := ke
      by_cases h1 : a = k
      · subst h1
        by_cases h2 : k' = a
        · subst h2; simp [upsert, lookupEntry]
        · simp [upsert, lookupEntry, h2, Ne.symm h2]
      · by_cases h2 : a = k'
        · subst h2
          simp [upsert, lookupEntry, h1, Ne.symm h1]
        · simp [upsert, lookupEntry, h1, h2, ih]

theorem lookupEntry_applyHead (ps : List (BenchKey × Package))
    (s : List (BenchKey × BenchEntry)) (k : BenchKey) :
    lookupEntry (applyPairs setHead ps s) k =
      match lastMatch ps k with
      | none => lookupEntry s k
      | some p => some ⟨((lookupEntry s k).getD ⟨none, none⟩).base, some p⟩ := by
  induction ps generalizing s with
  | nil => simp [applyPairs, lastMatch]
  | cons kp rest ih =>
      have step : applyPairs setHead (kp :: rest) s =
          applyPairs setHead rest (upsert kp.1 (setHead kp.2) s) := by
        simp [applyPairs]
      rw [step, ih]
      by_cases h : k = kp.1
      · subst h
        rcases hrest : lastMatch rest kp.1 with _ | p <;>
          simp [lastMatch, hrest, setHead, lookupEntry_upsert]
      · have h' : ¬ kp.1 = k := fun hh => h hh.symm
        rcases hrest : lastMatch rest k with _ | p <;>
          simp [lastMatch, hrest, h, h', lookupEntry_upsert]

theorem lookupEntry_applyBase (ps : List (BenchKey × Package))
    (s : List (BenchKey × BenchEntry)) (k : BenchKey) :
    lookupEntry (applyPairs setBase ps s) k =
      match lastMatch ps k with
      | none => lookupEntry s k
      | some p => some ⟨some p, ((lookupEntry s k).getD ⟨none, none⟩).head⟩ := by
  induction ps generalizing s with
  | nil => simp [applyPairs, lastMatch]
  | cons kp rest ih =>
      have step : applyPairs setBase (kp :: rest) s =
          applyPairs setBase rest (upsert kp.1 (setBase kp.2) s) := by
        simp [applyPairs]
      rw [step, ih]
      by_cases h : k = kp.1
      · subst h
        rcases hrest : lastMatch rest kp.1 with _ | p <;>
          simp [lastMatch, hrest, setBase, lookupEntry_upsert]
      · have h' : ¬ kp.1 = k := fun hh => h hh.symm
        rcases hrest : lastMatch rest k with _ | p <;>
          simp [lastMatch, hrest, h, h', lookupEntry_upsert]

theorem lookupEntry_buildBenchMap (bps hps : List Package) (k : BenchKey) :
    lookupEntry (buildBenchMap bps hps) k =
      match sideRecord bps k, sideRecord hps k with
      | none, none => none
      | none, some ph => some ⟨none, some ph⟩
      | some pb, none => some ⟨some pb, none⟩
      | some pb, some ph => some ⟨some pb, some ph⟩ := by
  unfold buildBenchMap
  rw [lookupEntry_applyBase, lookupEntry_applyHead]
  rcases hb : lastMatch (benchPairs bps) k with _ | pb <;>
    rcases hh : lastMatch (benchPairs hps) k with _ | ph <;>
      simp [sideRecord, hb, hh, lookupEntry]

theorem keys_upsert (s : List (BenchKey × BenchEntry)) (k : BenchKey)
    (f : BenchEntry → BenchEntry) :
    (upsert k f s).map Prod.fst =
      if k ∈ s.map Prod.fst then s.map Prod.fst else s.map Prod.fst ++ [k] := by
  induction s with
  | nil => simp [upsert]
  | cons ke rest ih =>
      obtain ⟨a, e⟩ := ke
      by_cases h : a = k
      · subst h; simp [upsert]
      · have h' : ¬ k = a := fun hh => h hh.symm
        by_cases hm : k ∈ rest.map Prod.fst <;>
          simp [upsert, h, h', hm, ih]

theorem keysNodup_upsert (s : List (BenchKey × BenchEntry)) (k : BenchKey)
    (f : BenchEntry → BenchEntry) (h : (s.map Prod.fst).Nodup) :
    ((upsert k f s).map Prod.fst).Nodup := by
  rw [keys_upsert]
  by_cases hm : k ∈ s.map Prod.fst
  · simpa [hm]
  · simpa [hm, List.nodup_append] using h

theorem keysNodup_applyPairs (f : Package → BenchEntry → BenchEntry)
    (ps : List (BenchKey × Package)) (s : List (BenchKey × BenchEntry))
    (h : (s.map Prod.fst).Nodup) :
    ((applyPairs f ps s).map Prod.fst).Nodup := by
  induction ps generalizing s with
  | nil => simpa [applyPairs] using h
  | cons kp rest ih =>
      have step : applyPairs f (kp :: rest) s =
          applyPairs f rest (upsert kp.1 (f kp.2) s) := by
        simp [applyPairs]
      rw [step]
      exact ih _ (keysNodup_upsert _ _ _ h)

theorem keysNodup_buildBenchMap (bps hps : List Package) :
    ((buildBenchMap bps hps).map Prod.fst).Nodup := by
  unfold buildBenchMap
  exact keysNodup_applyPairs _ _ _ (keysNodup_applyPairs _ _ _ (by simp))

theorem mem_iff_lookupEntry (s : List (BenchKey × BenchEntry))
    (h : (s.map Prod.fst).Nodup) (k : BenchKey) (e : BenchEntry) :
    (k, e) ∈ s ↔ lookupEntry s k = some e := by
  induction s with
  | nil => simp [lookupEntry]
  | cons ke rest ih =>
      obtain ⟨a, e'⟩ := ke
      simp only [List.map_cons, List.nodup_cons] at h
      by_cases ha : a = k
      · subst ha
        have : (a, e) ∉ rest := fun hmem => h.1 (List.mem_map.mpr ⟨(a, e), hmem, rfl⟩)
        simp [lookupEntry, this, eq_comm]
      · have h' : ¬ (k, e) = (a, e') := by
          intro hh
          exact ha (congrArg Prod.fst hh).symm
        simp [lookupEntry, ha, ih h.2, h']

/-- Membership of a key in the plan, in terms of the final map lookup. -/
theorem mem_plan_iff (bps hps : List Package) (k : BenchKey) :
    k ∈ (compareResult bps hps).map PlanEntry.key ↔
      ∃ e, lookupEntry (buildBenchMap bps hps) k = some e ∧ skipEntry e = false := by
  have hiff : ∀ (ke : BenchKey × BenchEntry) (pe : PlanEntry),
      ((if skipEntry ke.2 then none
        else some ⟨ke.1, ke.2.base, ke.2.head, entryReason ke.2⟩) = some pe) ↔
        (skipEntry ke.2 = false ∧ pe = ⟨ke.1, ke.2.base, ke.2.head, entryReason ke.2⟩) := by
    intro ke pe
    by_cases h : skipEntry ke.2 <;> simp [h, eq_comm]
  constructor
  · intro hmem
    rcases List.mem_map.mp hmem with ⟨pe, hpe, hkey⟩
    rcases List.mem_filterMap.mp hpe with ⟨ke, hke, hsome⟩
    rcases (hiff ke pe).mp hsome with ⟨hskip, rfl⟩
    obtain ⟨k0, e⟩ := ke
    obtain rfl : k0 = k := hkey
    exact ⟨e, (mem_iff_lookupEntry _ (keysNodup_buildBenchMap bps hps) _ e).mp hke, hskip⟩
  · rintro ⟨e, hlook, hskip⟩
    have hmem := (mem_iff_lookupEntry _ (keysNodup_buildBenchMap bps hps) k e).mpr hlook
    refine List.mem_map.mpr ⟨⟨k, e.base, e.head, entryReason e⟩, ?_, rfl⟩
    exact List.mem_filterMap.mpr ⟨(k, e), hmem, (hiff (k, e) _).mpr ⟨hskip, rfl⟩⟩

theorem lastMatch_isSome_iff (ps : List (BenchKey × Package)) (k : BenchKey) :
    (lastMatch ps k).isSome ↔ ∃ kp ∈ ps, kp.1 = k := by
  induction ps with
  | nil => simp [lastMatch]
  | cons kp rest ih =>
      rcases hrest : lastMatch rest k with _ | p
      · rw [hrest] at ih
        by_cases h : kp.1 = k
        · simp only [lastMatch, hrest, if_pos h, Option.isSome_some, true_iff]
          exact ⟨kp, List.mem_cons_self kp rest, h⟩
        · simp only [lastMatch, hrest, if_neg h]
          simp only [Option.isSome_none, Bool.false_eq_true, false_iff] at ih ⊢
          rintro ⟨kp', hmem, hk⟩
          rcases List.mem_cons.mp hmem with rfl | hmem'
          · exact h hk
          · exact ih ⟨kp', hmem', hk⟩
      · rw [hrest] at ih
        simp only [lastMatch, hrest]
        simp only [Option.isSome_some, true_iff] at ih ⊢
        rcases ih with ⟨kp', hmem, hk⟩
        exact ⟨kp', List.mem_cons_of_mem _ hmem, hk⟩

theorem mem_benchPairs (pkgs : List Package) (k : BenchKey) :
    (∃ kp ∈ benchPairs pkgs, kp.1 = k) ↔ presentIn pkgs k := by
  constructor
  · rintro ⟨⟨k0, p⟩, hmem, hk⟩
    subst hk
    rcases List.mem_flatMap.mp hmem with ⟨q, hq, hpair⟩
    rcases List.mem_map.mp hpair with ⟨b, hb, heq⟩
    obtain ⟨hkey, hpkg⟩ : (⟨q.importPath, b⟩ : BenchKey) = k0 ∧ q = p := by
      constructor
      · exact congrArg Prod.fst heq
      · exact congrArg Prod.snd heq
    subst hpkg
    refine ⟨q, hq, ?_, ?_⟩
    · exact (congrArg BenchKey.packagePath hkey)
    · have := congrArg BenchKey.benchmark hkey
      simpa [← this] using hb
  · rintro ⟨p, hp, hpath, hbench⟩
    refine ⟨(⟨p.importPath, k.benchmark⟩, p), ?_, ?_⟩
    · exact List.mem_flatMap.mpr ⟨p, hp, List.mem_map.mpr ⟨k.benchmark, hbench, rfl⟩⟩
    · cases k
      simp_all

theorem sideRecord_isSome_iff (pkgs : List Package) (k : BenchKey) :
    (sideRecord pkgs k).isSome ↔ presentIn pkgs k := by
  rw [sideRecord, lastMatch_isSome_iff, mem_benchPairs]

/-- C1: a benchmark key appears in the execution plan returned by
compareResult iff it is present on only one side, or present on both
sides with differing test-binary content hashes; keys present on both
sides with byte-equal hashes are excluded from the plan.  Presence of a
side is membership of a matching package; the hash comparison is between
the package records the map stores for the key (the last matching
package of each side). -/
theorem compareResult_membership (bps hps : List Package) (k : BenchKey) :
    k ∈ (compareResult bps hps).map PlanEntry.key ↔
      ((presentIn hps k ∧ ¬ presentIn bps k) ∨
       (presentIn bps k ∧ ¬ presentIn hps k) ∨
       (∃ pb ph, sideRecord bps k = some pb ∧ sideRecord hps k = some ph ∧
          pb.testBinaryHash ≠ ph.testBinaryHash)) := by
  rw [mem_plan_iff]
  have hb := sideRecord_isSome_iff bps k
  have hh := sideRecord_isSome_iff hps k
  rcases hsb : sideRecord bps k with _ | pb <;>
    rcases hsh : sideRecord hps k with _ | ph
  · rw [hsb] at hb; rw [hsh] at hh
    simp only [Option.isSome_none, Bool.false_eq_true, false_iff] at hb hh
    simp [lookupEntry_buildBenchMap, hsb, hsh, hb, hh]
  · rw [hsb] at hb; rw [hsh] at hh
    simp only [Option.isSome_none, Option.isSome_some, Bool.false_eq_true,
      false_iff, true_iff] at hb hh
    simp [lookupEntry_buildBenchMap, hsb, hsh, hb, hh, skipEntry]
  · rw [hsb] at hb; rw [hsh] at hh
    simp only [Option.isSome_none, Option.isSome_some, Bool.false_eq_true,
      false_iff, true_iff] at hb hh
    simp [lookupEntry_buildBenchMap, hsb, hsh, hb, hh, skipEntry]
  · rw [hsb] at hb; rw [hsh] at hh
    simp only [Option.isSome_some, true_iff] at hb hh
    simp [lookupEntry_buildBenchMap, hsb, hsh, hb, hh, skipEntry,
      beq_eq_false_iff_ne]

/-! ## Plan order (C6) -/

/-- The first-seen order of a key sequence: Go map insertion order as
maintained by resultMaps (a key is appended when first seen). -/
def firstSeen (ks : List BenchKey) : List BenchKey :=
  ks.foldl (fun acc k => if k ∈ acc then acc else acc ++ [k]) []

theorem keys_applyPairs (f : Package → BenchEntry → BenchEntry)
    (ps : List (BenchKey × Package)) (s : List (BenchKey × BenchEntry)) :
    (applyPairs f ps s).map Prod.fst =
      (ps.map Prod.fst).foldl (fun acc k => if k ∈ acc then acc else acc ++ [k])
        (s.map Prod.fst) := by
  induction ps generalizing s with
  | nil => simp [applyPairs]
  | cons kp rest ih =>
      have step : applyPairs f (kp :: rest) s =
          applyPairs f rest (upsert kp.1 (f kp.2) s) := by
        simp [applyPairs]
      rw [step, ih]
      simp only [List.map_cons, List.foldl_cons]
      rw [keys_upsert]

theorem keys_buildBenchMap (bps hps : List Package) :
    (buildBenchMap bps hps).map Prod.fst =
      firstSeen ((benchPairs hps ++ benchPairs bps).map Prod.fst) := by
  unfold buildBenchMap firstSeen
  rw [keys_applyPairs, keys_applyPairs]
  simp [List.foldl_append]

theorem filterMap_keys_sublist (M : List (BenchKey × BenchEntry)) :
    ((M.filterMap fun ke =>
        if skipEntry ke.2 then none
        else some (⟨ke.1, ke.2.base, ke.2.head, entryReason ke.2⟩ : PlanEntry)).map
          PlanEntry.key).Sublist (M.map Prod.fst) := by
  induction M with
  | nil => simp
  | cons ke rest ih =>
      by_cases h : skipEntry ke.2
      · simp only [List.filterMap_cons, h, List.map_cons]
        exact ih.cons ke.1
      · simp only [List.filterMap_cons, h, Bool.false_eq_true, List.map_cons]
        exact ih.cons₂ ke.1

/-- The packages of the scenario of C6: base has benchmark A only, head
has A and B, and the compiled test-binary hash of the package differs
between the two revisions. -/
def scenarioBasePkg : Package := ⟨"pkg1", ["BenchmarkA"], [0]⟩

def scenarioHeadPkg : Package := ⟨"pkg1", ["BenchmarkA", "BenchmarkB"], [1]⟩

/-- C6: the execution plan lists keys in first-seen insertion order over
the merged key space (head pairs first, then base pairs): the plan keys
form a sublist of the first-seen key order.  In the concrete scenario
(base has A, head has A and B, hashes of A's package differ) the plan is
exactly A with the code-change reason followed by B with the
missing-in-base reason, and no nil head record is dereferenced. -/
theorem compareResult_order_and_scenario :
    (∀ (bps hps : List Package),
        ((compareResult bps hps).map PlanEntry.key).Sublist
          (firstSeen ((benchPairs hps ++ benchPairs bps).map Prod.fst)))
    ∧ compareResult [scenarioBasePkg] [scenarioHeadPkg] =
        [⟨⟨"pkg1", "BenchmarkA"⟩, some scenarioBasePkg, some scenarioHeadPkg,
            "code change"⟩,
         ⟨⟨"pkg1", "BenchmarkB"⟩, none, some scenarioHeadPkg,
            "benchmark does not exist in base"⟩]
    ∧ compareResultPanics [scenarioBasePkg] [scenarioHeadPkg] = false := by
  refine ⟨fun bps hps => ?_, by decide, by decide⟩
  rw [← keys_buildBenchMap]
  exact filterMap_keys_sublist _

/-- C10 evidence: with a benchmark present only in the base revision the
selection logic produces the missing-in-head plan entry, but the debug
log of the very same loop dereferences the nil head package record, so
the Go compareResult panics instead of returning that plan. -/
theorem compareResult_nil_head_eval :
    compareResultPanics [scenarioBasePkg] [] = true ∧
    compareResult [scenarioBasePkg] [] =
      [⟨⟨"pkg1", "BenchmarkA"⟩, some scenarioBasePkg, none,
          "benchmark does not exist in head"⟩] := by
  exact ⟨by decide, by decide⟩

/-! ## Teardown registry (bench.cleaner, C9) -/

/-- cleaner.add: appends the function to the cleanups slice (the mutex
only serialises registrations; the registered order is the call order). -/
def cleanerAdd {α : Type} (s : List α) (f : α) : List α := s ++ [f]

/-- cleaner.cleanup: the loop body executes c.cleanups[l-1-idx]() for
idx = 0, 1, ..., l-1; this list is the order in which the registered
actions are executed. -/
def cleanupOrder {α : Type} (cleanups : List α) : List α :=
  (List.finRange cleanups.length).map fun idx =>
    cleanups.get ⟨cleanups.length - 1 - idx.1, by have := idx.2; omega⟩

theorem foldl_cleanerAdd {α : Type} (fs acc : List α) :
    fs.foldl cleanerAdd acc = acc ++ fs := by
  induction fs generalizing acc with
  | nil => simp
  | cons f rest ih => simp [cleanerAdd, ih]

/-- C9: executing the teardown registry built by a sequence of add calls
runs the actions in strict reverse-registration order: the last
registered action first and the first registered action last; since the
executed list is exactly the reversal, every registered action is
executed exactly once. -/
theorem cleanup_reverse_order {α : Type} (fs : List α) :
    cleanupOrder (fs.foldl cleanerAdd []) = fs.reverse := by
  rw [foldl_cleanerAdd, List.nil_append]
  apply List.ext_get
  · simp [cleanupOrder]
  · intro n h1 h2
    have hn : n < fs.length := by simpa using h2
    simp only [cleanupOrder, List.get_map, List.get_finRange]
    rw [List.get_reverse' fs ⟨n, h2⟩ (by simp; omega)]

/-! ## Report model (report/report.go)

The number formatting done by the external humanize library is outside
the core (spec section 1 excludes markdown rendering collaborators), so
it is abstracted as a formatter parameter; the control flow of markdown
and DiffMarkdown (the empty-key checks, the link structure and the diff
formula) is translated from the source.  The float64 percentage
arithmetic is modelled exactly, over the rationals. -/

namespace Report

def baseURL : String := "https://flamegraph.com"

/-- report.BenchmarkValue: a scalar total plus the shareable key. -/
structure BenchmarkValue where
  ProfileValue : Int
  FlamegraphKey : String
deriving DecidableEq

/-- BenchmarkValue.markdown: the unavailable marker when the shareable
key is empty, otherwise a link whose text is the humanized number
(formatter abstracted, selected by the unit as in the source). -/
def BenchmarkValue.markdown (fmtNum : String → Int → String)
    (v : BenchmarkValue) (unit : String) : String :=
  if v.FlamegraphKey = "" then "n/a"
  else "[" ++ (fmtNum unit v.ProfileValue ++ ("](" ++ (baseURL ++ ("/share/" ++
    (v.FlamegraphKey ++ ")")))))

/-- report.BenchmarkResult: one resource kind of one benchmark run. -/
structure BenchmarkResult where
  Name : String
  Unit : String
  BaseValue : BenchmarkValue
  HeadValue : BenchmarkValue
deriving DecidableEq

def BenchmarkResult.baseMarkdown (fmtNum : String → Int → String)
    (r : BenchmarkResult) : String :=
  r.BaseValue.markdown fmtNum r.Unit

def BenchmarkResult.headMarkdown (fmtNum : String → Int → String)
    (r : BenchmarkResult) : String :=
  r.HeadValue.markdown fmtNum r.Unit

/-- The diff formula of DiffMarkdown:
float64(head-base) / float64(base) * 100, in exact arithmetic. -/
def diffPercent (base head : Int) : ℚ :=
  ((head : ℚ) - (base : ℚ)) / (base : ℚ) * 100

/-- BenchmarkResult.DiffMarkdown: the unavailable marker when either
side's shareable key is empty, otherwise a link whose text is the
formatted diff percentage. -/
def BenchmarkResult.diffMarkdown (fmtPct : ℚ → String)
    (r : BenchmarkResult) : String :=
  if r.BaseValue.FlamegraphKey = "" ∨ r.HeadValue.FlamegraphKey = "" then "n/a"
  else "[" ++ (fmtPct (diffPercent r.BaseValue.ProfileValue r.HeadValue.ProfileValue) ++
    (" %](" ++ (baseURL ++ ("/share/" ++ (r.BaseValue.FlamegraphKey ++ ("/" ++
    (r.HeadValue.FlamegraphKey ++ ")")))))))

end Report

/-- A rendered link always starts with an opening bracket, so it is
never the unavailable marker. -/
theorem bracket_ne_na (s : String) : ("[" ++ s) ≠ "n/a" := by
  intro h
  have h2 : '[' :: s.data = ['n', '/', 'a'] := congrArg String.data h
  simp at h2

/-- A concrete measurement with numeric totals on both sides, an empty
base shareable key and a non-empty head key. -/
def c3Result : Report.BenchmarkResult :=
  ⟨"cpu", "ns", ⟨10000000, ""⟩, ⟨20000000, "head-key"⟩⟩

/-- A concrete stand-in for the humanize formatter. -/
def c3Fmt : String → Int → String := fun _ n => toString n

def c3FmtPct : ℚ → String := fun _ => "diff"

/-- C3 counterexample: when only the base side's shareable key is empty,
the base value and the diff render as the unavailable marker but the head
value renders as a link, so the claim that all three render as
unavailable is false. -/
theorem markdown_na_counterexample :
    c3Result.baseMarkdown c3Fmt = "n/a" ∧
    c3Result.diffMarkdown c3FmtPct = "n/a" ∧
    c3Result.headMarkdown c3Fmt ≠ "n/a" := by
  refine ⟨by decide, by decide, ?_⟩
  exact bracket_ne_na _

/-- C3 amended: for every measurement and every formatter, the diff
renders as unavailable exactly when either side's shareable key is empty,
and each side's value renders as unavailable exactly when that side's own
key is empty — in all cases regardless of the numeric totals. -/
theorem markdown_na_amended (fmtNum : String → Int → String)
    (fmtPct : ℚ → String) (r : Report.BenchmarkResult) :
    (r.diffMarkdown fmtPct = "n/a" ↔
      (r.BaseValue.FlamegraphKey = "" ∨ r.HeadValue.FlamegraphKey = "")) ∧
    (r.baseMarkdown fmtNum = "n/a" ↔ r.BaseValue.FlamegraphKey = "") ∧
    (r.headMarkdown fmtNum = "n/a" ↔ r.HeadValue.FlamegraphKey = "") := by
  refine ⟨?_, ?_, ?_⟩
  · by_cases h : r.BaseValue.FlamegraphKey = "" ∨ r.HeadValue.FlamegraphKey = ""
    · simp [Report.BenchmarkResult.diffMarkdown, h]
    · simp only [Report.BenchmarkResult.diffMarkdown, if_neg h]
      simp [h, bracket_ne_na]
  · by_cases h : r.BaseValue.FlamegraphKey = ""
    · simp [Report.BenchmarkResult.baseMarkdown, Report.BenchmarkValue.markdown, h]
    · simp [Report.BenchmarkResult.baseMarkdown, Report.BenchmarkValue.markdown, h,
        bracket_ne_na]
  · by_cases h : r.HeadValue.FlamegraphKey = ""
    · simp [Report.BenchmarkResult.headMarkdown, Report.BenchmarkValue.markdown, h]
    · simp [Report.BenchmarkResult.headMarkdown, Report.BenchmarkValue.markdown, h,
        bracket_ne_na]

/-- C8: when both shareable keys are non-empty, DiffMarkdown renders the
link whose text is the formatted value of (head - base) / base * 100; at
base = 10,000,000 ns and head = 20,000,000 ns that percentage is exactly
100. -/
theorem diffMarkdown_formula :
    (∀ (fmtPct : ℚ → String) (r : Report.BenchmarkResult),
        r.BaseValue.FlamegraphKey ≠ "" → r.HeadValue.FlamegraphKey ≠ "" →
        r.diffMarkdown fmtPct =
          "[" ++ (fmtPct (((r.HeadValue.ProfileValue : ℚ) -
              (r.BaseValue.ProfileValue : ℚ)) / (r.BaseValue.ProfileValue : ℚ) * 100) ++
          (" %](" ++ (Report.baseURL ++ ("/share/" ++ (r.BaseValue.FlamegraphKey ++ ("/" ++
          (r.HeadValue.FlamegraphKey ++ ")"))))))))
    ∧ Report.diffPercent 10000000 20000000 = 100 := by
  constructor
  · intro fmtPct r hb hh
    simp [Report.BenchmarkResult.diffMarkdown, Report.diffPercent, hb, hh]
  · norm_num [Report.diffPercent]

/-- Witness for C8: the general rendering statement applied at the
concrete measurement of the scenario. -/
theorem diffMarkdown_formula_witness :
    (⟨"cpu", "ns", ⟨10000000, "base-key"⟩, ⟨20000000, "head-key"⟩⟩ :
        Report.BenchmarkResult).diffMarkdown (fun _ => "100") =
      "[100 %](https://flamegraph.com/share/base-key/head-key)" := by
  rw [diffMarkdown_formula.1 (fun _ => "100")
    ⟨"cpu", "ns", ⟨10000000, "base-key"⟩, ⟨20000000, "head-key"⟩⟩
    (by decide) (by decide)]
  decide

/-! ## Measurement model (bench package, phase 2) -/

/-- profileResult: shareable key, scalar total, flamegraph URL. -/
structure profileResult where
  Key : String
  Total : Int
  FlameGraphComURL : String
deriving DecidableEq

/-- benchmarkResult: one executed measurement of one benchmark. -/
structure benchmarkResult where
  ImportPath : String
  Name : String
  AllocObjects : profileResult
  AllocSpace : profileResult
  CPU : profileResult
  RawOutput : String
deriving DecidableEq

/-- benchSource: the side a measurement came from.  The zero value
(benchSourceUnknown) makes addResult panic and is never passed by any
caller, so the model carries the two used values. -/
inductive benchSource
  | head
  | base
deriving DecidableEq

/-- The m table built at the top of addResult: resource name, unit, and
the measurement's profile for that resource, in source order. -/
def profEntries (res : benchmarkResult) : List (String × String × profileResult) :=
  [("cpu", "ns", res.CPU),
   ("alloc_space", "bytes", res.AllocSpace),
   ("alloc_objects", "", res.AllocObjects)]

/-- addValue: writes the profile total and key into the side of the
report entry selected by the source. -/
def addValue (source : benchSource) (prof : profileResult)
    (r : Report.BenchmarkResult) : Report.BenchmarkResult :=
  match source with
  | .base => { r with BaseValue := ⟨prof.Total, prof.Key⟩ }
  | .head => { r with HeadValue := ⟨prof.Total, prof.Key⟩ }

/-- The first loop of addResult: walks the existing results; a result
whose name is still in m and whose incoming profile has a non-empty key
receives the side value, and the name is deleted from m; otherwise (name
not in m, or the incoming key is empty) the result is kept unchanged and
m keeps the name. -/
def updateLoop (source : benchSource) :
    List Report.BenchmarkResult → List (String × String × profileResult) →
      List Report.BenchmarkResult × List (String × String × profileResult)
  | [], m => ([], m)
  | r :: rest, m =>
      match m.find? (fun e => e.1 == r.Name) with
      | none =>
          let p := updateLoop source rest m
          (r :: p.1, p.2)
      | some e =>
          if e.2.2.Key = "" then
            let p := updateLoop source rest m
            (r :: p.1, p.2)
          else
            let p := updateLoop source rest (m.filter fun x => !(x.1 == r.Name))
            (addValue source e.2.2 r :: p.1, p.2)

/-- The second loop of addResult: iterates the entries remaining in m in
Go map iteration order — nondeterministic, so given here as the order
parameter — appending a fresh result (zero value on the unmeasured side)
per remaining entry. -/
def appendLoop (source : benchSource) (order : List String)
    (m : List (String × String × profileResult)) : List Report.BenchmarkResult :=
  order.filterMap fun n =>
    (m.find? (fun e => e.1 == n)).map fun e =>
      addValue source e.2.2 ⟨n, e.2.1, ⟨0, ""⟩, ⟨0, ""⟩⟩

/-- The comparator passed to sort.Slice by addResult.  The source
compares the names with equality, not less-than. -/
def sortLess (a b : Report.BenchmarkResult) : Bool := a.Name == b.Name

/-- One step of Go's insertion sort: the new element bubbles left from
the end of the processed prefix while less(element, left neighbour).
The prefix is carried reversed (nearest neighbour first). -/
def bubbleRev {α : Type} (less : α → α → Bool) (x : α) : List α → List α
  | [] => [x]
  | y :: ys => if less x y then y :: bubbleRev less x ys else x :: y :: ys

/-- Go's insertionSort — what sort.Slice executes for slices of fewer
than 13 elements, which covers the at most three results per entry here:
elements are processed left to right and bubbled into the prefix. -/
def insertionSortGo {α : Type} (less : α → α → Bool) (l : List α) : List α :=
  (l.foldl (fun acc x => bubbleRev less x acc) []).reverse

/-- addResult: update pass over the existing results, append pass over
the remaining m entries, then the sort.Slice call with the source's
name-equality comparator. -/
def addResult (order : List String) (source : benchSource)
    (res : benchmarkResult) (results : List Report.BenchmarkResult) :
    List Report.BenchmarkResult :=
  let p := updateLoop source results (profEntries res)
  insertionSortGo sortLess (p.1 ++ appendLoop source order p.2)

/-- A base-side measurement carrying all three resource kinds with
non-empty shareable keys. -/
def c4Res : benchmarkResult :=
  ⟨"pkg1", "BenchmarkA", ⟨"key-objects", 3, ""⟩, ⟨"key-space", 2, ""⟩,
    ⟨"key-cpu", 1, ""⟩, ""⟩

/-- C4 evidence: with map iteration order [cpu, alloc_objects,
alloc_space], merging one full base measurement leaves the results in
exactly that order — cpu first although alloc_objects sorts before it —
because the sort.Slice comparator tests name equality instead of
less-than and therefore never reorders distinct names; a different map
iteration order yields a different output, so the order is not
deterministic either. -/
theorem addResult_unsorted_eval :
    (addResult ["cpu", "alloc_objects", "alloc_space"] .base c4Res []).map
        Report.BenchmarkResult.Name = ["cpu", "alloc_objects", "alloc_space"]
    ∧ ("alloc_objects" : String) < "cpu"
    ∧ addResult ["cpu", "alloc_objects", "alloc_space"] .base c4Res [] ≠
        addResult ["alloc_objects", "alloc_space", "cpu"] .base c4Res [] := by
  refine ⟨by decide, ?_, by decide⟩
  rw [String.lt_iff_toList_lt]
  decide

/-! ## The all-three-kinds invariant (C7) -/

def threeKinds : List String := ["cpu", "alloc_space", "alloc_objects"]

theorem addValue_Name (source : benchSource) (prof : profileResult)
    (r : Report.BenchmarkResult) : (addValue source prof r).Name = r.Name := by
  cases source <;> rfl

/-- The update pass renames nothing: the names of the walked results are
unchanged (values may be updated in place, entries are never removed). -/
theorem updateLoop_names (source : benchSource)
    (rs : List Report.BenchmarkResult)
    (m : List (String × String × profileResult)) :
    (updateLoop source rs m).1.map Report.BenchmarkResult.Name =
      rs.map Report.BenchmarkResult.Name := by
  induction rs generalizing m with
  | nil => simp [updateLoop]
  | cons r rest ih =>
      rcases hfind : m.find? (fun e => e.1 == r.Name) with _ | e
      · simp [updateLoop, hfind, ih]
      · by_cases hkey : e.2.2.Key = "" <;>
          simp [updateLoop, hfind, hkey, ih, addValue_Name]

theorem bubbleRev_perm {α : Type} (less : α → α → Bool) (x : α) (l : List α) :
    (bubbleRev less x l).Perm (x :: l) := by
  induction l with
  | nil => simp [bubbleRev]
  | cons y ys ih =>
      by_cases h : less x y
      · simp only [bubbleRev, if_pos h]
        exact (ih.cons y).trans (List.Perm.swap x y ys)
      · simp [bubbleRev, h]

theorem foldl_bubbleRev_perm {α : Type} (less : α → α → Bool)
    (l acc : List α) :
    (l.foldl (fun acc x => bubbleRev less x acc) acc).Perm (l ++ acc) := by
  induction l generalizing acc with
  | nil => simp
  | cons x xs ih =>
      simp only [List.foldl_cons, List.cons_append]
      exact ((ih _).trans ((bubbleRev_perm less x acc).append_left xs)).trans
        List.perm_middle

/-- sort.Slice permutes the slice: membership is preserved. -/
theorem insertionSortGo_perm {α : Type} (less : α → α → Bool) (l : List α) :
    (insertionSortGo less l).Perm l := by
  unfold insertionSortGo
  exact (List.reverse_perm _).trans (by simpa using foldl_bubbleRev_perm less l [])

/-- The append pass emits a result named n for every n of the iteration
order that is still present in m. -/
theorem mem_appendLoop (source : benchSource) (order : List String)
    (m : List (String × String × profileResult)) (n : String) (e)
    (horder : n ∈ order) (hfind : m.find? (fun x => x.1 == n) = some e) :
    n ∈ (appendLoop source order m).map Report.BenchmarkResult.Name := by
  refine List.mem_map.mpr ⟨addValue source e.2.2 ⟨n, e.2.1, ⟨0, ""⟩, ⟨0, ""⟩⟩, ?_,
    addValue_Name _ _ _⟩
  exact List.mem_filterMap.mpr ⟨n, horder, by simp [hfind]⟩

/-- Step preservation: addResult never loses an existing result name. -/
theorem mem_names_addResult (order : List String) (source : benchSource)
    (res : benchmarkResult) (acc : List Report.BenchmarkResult) (n : String)
    (h : n ∈ acc.map Report.BenchmarkResult.Name) :
    n ∈ (addResult order source res acc).map Report.BenchmarkResult.Name := by
  unfold addResult
  have hperm := (insertionSortGo_perm sortLess
    ((updateLoop source acc (profEntries res)).1 ++
      appendLoop source order (updateLoop source acc (profEntries res)).2)).map
        Report.BenchmarkResult.Name
  rw [hperm.mem_iff]
  rw [List.map_append, List.mem_append]
  left
  rw [updateLoop_names]
  exact h

/-- On the first call (empty results) the update pass is a no-op and the
append pass emits every entry of m, so every kind of the iteration order
appears. -/
theorem first_call_names (order : List String) (source : benchSource)
    (res : benchmarkResult) (n : String) (hn : n ∈ threeKinds)
    (horder : n ∈ order) :
    n ∈ (addResult order source res []).map Report.BenchmarkResult.Name := by
  unfold addResult
  have hperm := (insertionSortGo_perm sortLess
    ((updateLoop source [] (profEntries res)).1 ++
      appendLoop source order (updateLoop source [] (profEntries res)).2)).map
        Report.BenchmarkResult.Name
  rw [hperm.mem_iff]
  have hu : updateLoop source [] (profEntries res) = ([], profEntries res) := rfl
  rw [hu]
  simp only [List.nil_append]
  simp only [threeKinds, List.mem_cons, List.not_mem_nil, or_false] at hn
  rcases hn with rfl | rfl | rfl
  · exact mem_appendLoop source order _ _ ("cpu", "ns", res.CPU) horder
      (by simp [profEntries, List.find?])
  · exact mem_appendLoop source order _ _ ("alloc_space", "bytes", res.AllocSpace)
      horder (by simp [profEntries, List.find?])
  · exact mem_appendLoop source order _ _ ("alloc_objects", "", res.AllocObjects)
      horder (by simp [profEntries, List.find?])

/-- One addResult call of the phase-2 loop: the Go map iteration order of
its second pass, the side, and the side's measurement. -/
structure AddCall where
  order : List String
  source : benchSource
  res : benchmarkResult

/-- The sequence of addResult calls applied to a plan entry's result
list. -/
def applyCalls (calls : List AddCall)
    (init : List Report.BenchmarkResult) : List Report.BenchmarkResult :=
  calls.foldl (fun acc c => addResult c.order c.source c.res acc) init

theorem applyCalls_preserves_names (calls : List AddCall)
    (acc : List Report.BenchmarkResult) (n : String)
    (h : n ∈ acc.map Report.BenchmarkResult.Name) :
    n ∈ (applyCalls calls acc).map Report.BenchmarkResult.Name := by
  induction calls generalizing acc with
  | nil => simpa [applyCalls] using h
  | cons c rest ih =>
      have step : applyCalls (c :: rest) acc =
          applyCalls rest (addResult c.order c.source c.res acc) := by
        simp [applyCalls]
      rw [step]
      exact ih _ (mem_names_addResult c.order c.source c.res acc n h)

/-- C7: after any nonempty sequence of addResult calls on a plan entry
(from either side, with any combination of empty and non-empty keys, and
any map iteration orders covering the three resource names), the entry's
result list contains all three resource kinds — a kind a side never
measured is carried with an empty value rather than omitted. -/
theorem addResult_all_kinds (calls : List AddCall) (hne : calls ≠ [])
    (horder : ∀ c ∈ calls, ∀ n ∈ threeKinds, n ∈ c.order) :
    ∀ n ∈ threeKinds, n ∈ (applyCalls calls []).map Report.BenchmarkResult.Name := by
  intro n hn
  match calls, hne with
  | c :: rest, _ =>
      have step : applyCalls (c :: rest) [] =
          applyCalls rest (addResult c.order c.source c.res []) := by
        simp [applyCalls]
      rw [step]
      refine applyCalls_preserves_names rest _ n ?_
      exact first_call_names c.order c.source c.res n hn
        (horder c (List.mem_cons_self c rest) n hn)

/-- Witness for C7: a single head-side call whose cpu key is empty still
leaves all three kinds present in the result list. -/
theorem addResult_all_kinds_witness :
    "cpu" ∈ (applyCalls
        [⟨["cpu", "alloc_space", "alloc_objects"], benchSource.head,
          ⟨"pkg1", "BenchmarkA", ⟨"ko", 3, ""⟩, ⟨"ks", 2, ""⟩, ⟨"", 1, ""⟩, ""⟩⟩]
        []).map Report.BenchmarkResult.Name
    ∧ "alloc_space" ∈ (applyCalls
        [⟨["cpu", "alloc_space", "alloc_objects"], benchSource.head,
          ⟨"pkg1", "BenchmarkA", ⟨"ko", 3, ""⟩, ⟨"ks", 2, ""⟩, ⟨"", 1, ""⟩, ""⟩⟩]
        []).map Report.BenchmarkResult.Name
    ∧ "alloc_objects" ∈ (applyCalls
        [⟨["cpu", "alloc_space", "alloc_objects"], benchSource.head,
          ⟨"pkg1", "BenchmarkA", ⟨"ko", 3, ""⟩, ⟨"ks", 2, ""⟩, ⟨"", 1, ""⟩, ""⟩⟩]
        []).map Report.BenchmarkResult.Name := by
  have horder : ∀ c ∈ [(⟨["cpu", "alloc_space", "alloc_objects"], benchSource.head,
      ⟨"pkg1", "BenchmarkA", ⟨"ko", 3, ""⟩, ⟨"ks", 2, ""⟩, ⟨"", 1, ""⟩, ""⟩⟩ : AddCall)],
      ∀ n ∈ threeKinds, n ∈ c.order := by
    intro c hc n hn
    simp only [List.mem_singleton] at hc
    subst hc
    simpa [threeKinds] using hn
  refine ⟨?_, ?_, ?_⟩
  · exact addResult_all_kinds _ (List.cons_ne_nil _ _) horder "cpu" (by decide)
  · exact addResult_all_kinds _ (List.cons_ne_nil _ _) horder "alloc_space" (by decide)
  · exact addResult_all_kinds _ (List.cons_ne_nil _ _) horder "alloc_objects" (by decide)

/-! ## Profile collection and sharing (bench.runBenchmark, uploadProfile) -/

/-- The decoded response of the profile-sharing collaborator. -/
structure ProfileResponse where
  url : String
  key : String
  subProfiles : List (String × String)
deriving DecidableEq

/-- An HTTP response from the sharing collaborator. -/
structure HttpResponse where
  statusCode : Nat
  body : String
deriving DecidableEq

/-- uploadProfile: a transport error is returned as-is; a non-OK status
becomes an upload error carrying status and body; an OK response is
JSON-decoded (decoder abstracted). -/
def uploadProfile (doRequest : Except String HttpResponse)
    (decodeBody : String → Option ProfileResponse) :
    Except String ProfileResponse :=
  match doRequest with
  | Except.error e => Except.error e
  | Except.ok resp =>
      if resp.statusCode ≠ 200 then
        Except.error ("failed to upload profile: [" ++ (toString resp.statusCode ++
          ("] msg=" ++ resp.body)))
      else
        match decodeBody resp.body with
        | none => Except.error "failed to unmarshal profile response"
        | some r => Except.ok r

/-- A parsed pprof profile: the sample type names and the rows of sample
values (one value per sample type). -/
structure GoProfile where
  sampleTypes : List String
  samples : List (List Int)
deriving DecidableEq

/-- sumProfiles: the sum over all samples of the value at the given
sample-type index. -/
def sumProfiles (p : GoProfile) (typeIdx : Nat) : Int :=
  (p.samples.map fun v => v.getD typeIdx 0).sum

/-- The SampleType switch of runBenchmark: each recognised type name
stores its summed total into the matching resource of the result. -/
def applyTotals (p : GoProfile) (r : benchmarkResult) : benchmarkResult :=
  p.sampleTypes.enum.foldl (fun acc it =>
    if it.2 = "alloc_objects" then
      { acc with AllocObjects := { acc.AllocObjects with Total := sumProfiles p it.1 } }
    else if it.2 = "alloc_space" then
      { acc with AllocSpace := { acc.AllocSpace with Total := sumProfiles p it.1 } }
    else if it.2 = "cpu" then
      { acc with CPU := { acc.CPU with Total := sumProfiles p it.1 } }
    else acc) r

/-- The sub-profile switch of runBenchmark: each recognised sub-profile
name stores its shareable key (and the shared URL) into the matching
resource of the result. -/
def applyKeys (res : ProfileResponse) (r : benchmarkResult) : benchmarkResult :=
  res.subProfiles.foldl (fun acc sub =>
    if sub.1 = "alloc_objects" then
      { acc with AllocObjects :=
          { acc.AllocObjects with Key := sub.2, FlameGraphComURL := res.url } }
    else if sub.1 = "alloc_space" then
      { acc with AllocSpace :=
          { acc.AllocSpace with Key := sub.2, FlameGraphComURL := res.url } }
    else if sub.1 = "cpu" then
      { acc with CPU :=
          { acc.CPU with Key := sub.2, FlameGraphComURL := res.url } }
    else acc) r

/-- The per-profile body of the runBenchmark loop: parse the artifact,
sum its totals into the result, then upload it; an upload (or parse)
error aborts the whole measurement with that error. -/
def processProfile (prof : Except String GoProfile)
    (upload : Except String ProfileResponse) (r : benchmarkResult) :
    Except String benchmarkResult :=
  match prof with
  | Except.error e => Except.error e
  | Except.ok p =>
      let r1 := applyTotals p r
      match upload with
      | Except.error e => Except.error e
      | Except.ok resp => Except.ok (applyKeys resp r1)

/-- The externally determined outcomes runBenchmark depends on: the
benchmark process run, the raw benchmark output, the two parsed profile
artifacts (cpu.pprof, mem.pprof) and the sharing collaborator's outcome
for each of the two uploads. -/
structure RunBenchEnv where
  runOutcome : Except String Unit
  rawOutput : String
  cpuProfile : Except String GoProfile
  memProfile : Except String GoProfile
  cpuUpload : Except String ProfileResponse
  memUpload : Except String ProfileResponse

/-- runBenchmark: a failed process run is an error; otherwise the zero
result is filled by processing the cpu profile then the memory profile
(the loop over []string{cpuProfile, memProfile}). -/
def runBenchmark (env : RunBenchEnv) (importPath benchName : String) :
    Except String benchmarkResult :=
  match env.runOutcome with
  | Except.error e => Except.error ("failed to run benchmark: " ++ e)
  | Except.ok _ =>
      let r0 : benchmarkResult :=
        ⟨importPath, benchName, ⟨"", 0, ""⟩, ⟨"", 0, ""⟩, ⟨"", 0, ""⟩, env.rawOutput⟩
      match processProfile env.cpuProfile env.cpuUpload r0 with
      | Except.error e => Except.error e
      | Except.ok r1 => processProfile env.memProfile env.memUpload r1

/-- A cpu profile with a nonzero total, for the counterexample. -/
def c5Profile : GoProfile := ⟨["cpu"], [[5], [7]]⟩

/-- An environment in which the benchmark runs fine, profiles parse, but
the sharing collaborator is unreachable for the cpu artifact. -/
def c5Env : RunBenchEnv :=
  ⟨Except.ok (), "raw", Except.ok c5Profile, Except.ok c5Profile,
    uploadProfile (Except.error "dial tcp: connection refused") (fun _ => none),
    Except.ok ⟨"https://flamegraph.com/x", "k", [("cpu", "kc")]⟩⟩

/-- C5 counterexample: when the sharing collaborator is unreachable,
runBenchmark returns the sharing error and no measurement at all — the
numeric totals already computed are discarded rather than kept with an
empty shareable key, so the sharing failure is a measurement failure. -/
theorem runBenchmark_upload_counterexample :
    runBenchmark c5Env "pkg1" "BenchmarkA" =
      Except.error "dial tcp: connection refused" := by
  rfl

/-- C5 amended: a sharing failure is propagated as a failure of the
whole measurement: a non-OK response makes uploadProfile fail, and a
failed upload of the first processed artifact makes runBenchmark return
that error, so no measurement value is produced. -/
theorem runBenchmark_sharing_failure_amended :
    (∀ (resp : HttpResponse) (dec : String → Option ProfileResponse),
        resp.statusCode ≠ 200 →
        uploadProfile (Except.ok resp) dec =
          Except.error ("failed to upload profile: [" ++ (toString resp.statusCode ++
            ("] msg=" ++ resp.body))))
    ∧ (∀ (env : RunBenchEnv) (ip bn e : String) (p : GoProfile),
        env.runOutcome = Except.ok () → env.cpuProfile = Except.ok p →
        env.cpuUpload = Except.error e →
        runBenchmark env ip bn = Except.error e) := by
  constructor
  · intro resp dec h
    simp [uploadProfile, h]
  · intro env ip bn e p hrun hprof hup
    simp [runBenchmark, hrun, processProfile, hprof, hup]

/-- Witness for C5's amended statement: both parts applied at concrete
inputs. -/
theorem runBenchmark_sharing_failure_witness :
    uploadProfile (Except.ok ⟨503, "overloaded"⟩) (fun _ => none) =
      Except.error "failed to upload profile: [503] msg=overloaded"
    ∧ runBenchmark
        ⟨Except.ok (), "raw", Except.ok c5Profile, Except.ok c5Profile,
          Except.error "boom", Except.ok ⟨"u", "k", []⟩⟩ "pkg1" "BenchmarkA" =
        Except.error "boom" := by
  constructor
  · have h := runBenchmark_sharing_failure_amended.1 ⟨503, "overloaded"⟩
      (fun _ => none) (by decide)
    rw [h]
    exact congrArg Except.error (by decide)
  · exact runBenchmark_sharing_failure_amended.2 _ "pkg1" "BenchmarkA" "boom"
      c5Profile rfl rfl rfl

/-! ## The Compare phase-2 loop (C2)

Per plan entry the loop runs the benchmark on each present side; a Go
runBenchmark error comes with a nil result pointer, which handleResult
then dereferences.  Nil dereferences surface as Except.error with the Go
runtime message; the environment provides each side's outcome. -/

def nilDereference : String :=
  "runtime error: invalid memory address or nil pointer dereference"

/-- The logFields appended by the handleResult closure for one side's
measurement: key and total per resource whose shareable key is
non-empty. -/
def handleResultFields (sideName : String) (r : benchmarkResult) : List String :=
  (if r.CPU.Key ≠ "" then
    [sideName ++ "_cpu", r.CPU.Key, sideName ++ "_cpu_total", toString r.CPU.Total]
   else []) ++
  ((if r.AllocSpace.Key ≠ "" then
    [sideName ++ "_alloc_space", r.AllocSpace.Key,
     sideName ++ "_alloc_space_total", toString r.AllocSpace.Total]
   else []) ++
  (if r.AllocObjects.Key ≠ "" then
    [sideName ++ "_alloc_objects", r.AllocObjects.Key,
     sideName ++ "_alloc_objects_total", toString r.AllocObjects.Total]
   else []))

/-- handleResult: called with the possibly-nil measurement pointer; it
reads res.CPU.Key first, so a nil measurement is a nil dereference. -/
def handleResult (sideName : String) (res : Option benchmarkResult) :
    Except String (List String) :=
  match res with
  | none => Except.error nilDereference
  | some r => Except.ok (handleResultFields sideName r)

/-- One side of the loop body: when the side's package is present the
benchmark is executed; on error the loop logs the error — naming
r.base.meta.ImportPath in both branches, itself a nil dereference when
the entry has no base — and then falls through to handleResult with the
nil measurement. -/
def runSide (env : benchSource → BenchKey → Option benchmarkResult)
    (r : PlanEntry) (s : benchSource) : Except String (List String) :=
  match (match s with | benchSource.base => r.base | benchSource.head => r.head) with
  | none => Except.ok []
  | some _ =>
      let res := env s r.key
      let sideName := match s with
        | benchSource.base => "base"
        | benchSource.head => "head"
      let errLogs : Except String (List String) :=
        match res with
        | none =>
            match r.base with
            | none => Except.error nilDereference
            | some pb =>
                Except.ok ["error running benchmark package=" ++ (pb.importPath ++
                  (" benchmark=" ++ r.key.benchmark))]
        | some _ => Except.ok []
      match errLogs with
      | Except.error e => Except.error e
      | Except.ok l1 =>
          match handleResult sideName res with
          | Except.error e => Except.error e
          | Except.ok fields => Except.ok (l1 ++ fields)

/-- The phase-2 loop over the plan: base side then head side per entry,
in plan order; the collected log lines are returned, and a panic aborts
the loop. -/
def phase2 (env : benchSource → BenchKey → Option benchmarkResult) :
    List PlanEntry → Except String (List String)
  | [] => Except.ok []
  | r :: rest =>
      match runSide env r benchSource.base with
      | Except.error e => Except.error e
      | Except.ok l1 =>
          match runSide env r benchSource.head with
          | Except.error e => Except.error e
          | Except.ok l2 =>
              match phase2 env rest with
              | Except.error e => Except.error e
              | Except.ok ls => Except.ok (l1 ++ (l2 ++ ls))

/-- A measurement used for the successful executions of the C2 plan. -/
def c2OkRes : benchmarkResult :=
  ⟨"pkg1", "BenchmarkA", ⟨"ko", 3, ""⟩, ⟨"ks", 2, ""⟩, ⟨"kc", 1, ""⟩, ""⟩

/-- The environment of the C2 failing input: the base-side execution of
pkg1.BenchmarkA fails (nil measurement), everything else succeeds. -/
def c2Env : benchSource → BenchKey → Option benchmarkResult := fun s k =>
  match s with
  | benchSource.base =>
      if k = ⟨"pkg1", "BenchmarkA"⟩ then none else some c2OkRes
  | benchSource.head => some c2OkRes

def c2Pkg : Package := ⟨"pkg1", ["BenchmarkA"], [0]⟩

def c2Pkg2 : Package := ⟨"pkg2", ["BenchmarkB"], [1]⟩

/-- C2 evidence: on a plan of two entries whose first base-side
execution fails, the loop logs the error but then hands the nil
measurement to handleResult, which dereferences it — the run aborts with
a nil-pointer panic instead of marking the side absent and continuing to
the second entry. -/
theorem compare_phase2_aborts_on_failure :
    phase2 c2Env
      [⟨⟨"pkg1", "BenchmarkA"⟩, some c2Pkg, some c2Pkg, "code change"⟩,
       ⟨⟨"pkg2", "BenchmarkB"⟩, some c2Pkg2, some c2Pkg2, "code change"⟩] =
      Except.error nilDereference
    ∧ phase2 c2Env
        [⟨⟨"pkg2", "BenchmarkB"⟩, some c2Pkg2, some c2Pkg2, "code change"⟩] =
        Except.ok
          ["base_cpu", "kc", "base_cpu_total", "1",
           "base_alloc_space", "ks", "base_alloc_space_total", "2",
           "base_alloc_objects", "ko", "base_alloc_objects_total", "3",
           "head_cpu", "kc", "head_cpu_total", "1",
           "head_alloc_space", "ks", "head_alloc_space_total", "2",
           "head_alloc_objects", "ko", "head_alloc_objects_total", "3"] := by
  constructor
  · rfl
  · rfl
